import Mathlib

/-!
# Verification of `tiny-sconf` (typed JSON-file configuration store)

Shallow embedding of the repository's core (`src/lib/draft.ts` —
`ConfigWrapper`, `src/lib/schema.ts` — `Schema`, `src/lib/events.ts` —
`Alteration`, `src/lib/options.ts` — `Options`) into Lean 4.

JavaScript runtime objects are modelled as association lists of
`String × JsValue` with JS `Object.assign` / property-set / indexing
semantics.  The filesystem at the configured path is a `FileContent`
(missing file, unparsable text, or a parsed JSON object); the JSON codec
is assumed faithful (it is an external collaborator in the design), so a
successful write of `next` leaves `.parsed next` on disk.  Write-failure
nondeterminism (disk full, externally deleted directory) is injected via
an oracle `List WriteOutcome`, one outcome per `fs.writeFileSync` attempt;
an exhausted oracle (`none` result) stands for the unbounded
retry-on-ENOENT recursion of `m_writeFile` never terminating.
Event emission is captured as the ordered list of events fired.
-/

namespace Sconf

/-- JavaScript runtime values (JSON values plus `undefined`, which JS
property access yields for an absent key). -/
inductive JsValue where
  | undefined : JsValue
  | null : JsValue
  | bool (b : Bool) : JsValue
  | num (n : Int) : JsValue
  | str (s : String) : JsValue
  | arr (xs : List JsValue) : JsValue
  | obj (o : List (String × JsValue)) : JsValue

/-- A JS object: ordered own enumerable properties. -/
abbrev Obj := List (String × JsValue)

/-- JS `k in o` / `Object.keys(o).includes(k)`. -/
def hasKey (o : Obj) (k : String) : Bool :=
  o.any (fun p => p.1 == k)

/-- Property lookup returning `none` for an absent key. -/
def getKey? (o : Obj) (k : String) : Option JsValue :=
  (o.find? (fun p => p.1 == k)).map Prod.snd

/-- JS indexing `o[k]`: the property's value, or `undefined` when absent. -/
def idx (o : Obj) (k : String) : JsValue :=
  (getKey? o k).getD .undefined

/-- JS property assignment `o[k] = v`: replaces the value in place when the
key exists (keeping insertion order), otherwise appends the new property. -/
def setKey (o : Obj) (k : String) (v : JsValue) : Obj :=
  if hasKey o k then o.map (fun p => if p.1 == k then (k, v) else p)
  else o ++ [(k, v)]

/-- JS `Object.assign(target, source)` as a value: every property of
`source`, in order, assigned onto `target`. -/
def objAssign (target source : Obj) : Obj :=
  source.foldl (fun acc p => setKey acc p.1 p.2) target

/-! ## Schema (`src/lib/schema.ts`) -/

/-- A draft entry `Preset(data, meta)`: `{ preset: data, ...meta }`
(`src/lib/draft.ts`, `_Preset_impl`).  The metadata bag is kept abstract;
core logic only reads `preset`. -/
structure DraftValue (M : Type) where
  preset : JsValue
  meta : M

/-- A draft: ordered mapping from configuration key to its preset entry. -/
abbrev Draft (M : Type) := List (String × DraftValue M)

/-- `Schema.m_flatten`: `Object.entries(draft).reduce((acc, [k, v]) =>
(acc[k] = v.preset, acc), {})`. -/
def flatten {M : Type} (draft : Draft M) : Obj :=
  draft.foldl (fun acc p => setKey acc p.1 p.2.preset) []

/-- `Schema.has`: `Object.keys(draft).includes(key)`. -/
def schemaHas {M : Type} (draft : Draft M) (k : String) : Bool :=
  draft.any (fun p => p.1 == k)

/-- `Schema.get`: `flattened[key]` (JS indexing, `undefined` if absent). -/
def schemaGet {M : Type} (draft : Draft M) (k : String) : JsValue :=
  idx (flatten draft) k

/-! ## Filesystem model -/

/-- State of the configured file path: no file, a file whose text does not
parse as JSON, or a file whose text parses to the JSON object `o`. -/
inductive FileContent where
  | missing : FileContent
  | corrupt : FileContent
  | parsed (o : Obj) : FileContent

/-- `fs.existsSync(path)` for our file model. -/
def fileExists : FileContent → Bool
  | .missing => false
  | _ => true

/-- Outcome of one `fs.writeFileSync` attempt: success, failure with
`err.code === 'ENOENT'` (path component missing), or any other failure. -/
inductive WriteOutcome where
  | ok : WriteOutcome
  | enoent : WriteOutcome
  | fatal : WriteOutcome

/-- Errors thrown by the wrapper. -/
inductive ConfErr where
  | validationError : ConfErr
  | resourceMissing : ConfErr
  | persistence : ConfErr

/-! ## Configuration store (`src/lib/draft.ts`, `ConfigWrapper`) -/

/-- Constructor options (`src/lib/options.ts`), fields optional as in
`Options.IConfig`. -/
structure IConfig where
  path : String
  useCache : Option Bool := none
  allowCreate : Option Bool := none
  exposedEvents : Option Bool := none

/-- `Object.assign({}, Options.Default, opts)`: resolved options. -/
structure ResolvedOptions where
  path : String
  useCache : Bool
  allowCreate : Bool
  exposedEvents : Bool

/-- Apply `Options.Default = { useCache: false, allowCreate: true,
exposedEvents: false }` under the given options. -/
def resolveOptions (opts : IConfig) : ResolvedOptions :=
  ⟨opts.path, opts.useCache.getD false, opts.allowCreate.getD true,
    opts.exposedEvents.getD false⟩

/-- The store's state: resolved options, the schema's flattened presets,
the in-memory cache (`none` models the initial `null`, never consulted
unless `useCache` is set by construction), and the backing file. -/
structure StoreState where
  options : ResolvedOptions
  flattened : Obj
  cache : Option Obj
  file : FileContent

/-- An alteration record (`src/lib/events.ts`, class `Alteration`). -/
structure Alteration where
  key : String
  value : JsValue

/-- An emitted event: the batch `"change"` event with its alteration list,
or a per-key `"change:<key>"` event carrying that key's new value. -/
inductive Event where
  | change (alts : List Alteration) : Event
  | changeKey (key : String) (value : JsValue) : Event

/-- `m_emitAlterations`: fire `"change"` with the whole batch, then — only
when `exposedEvents` — one `"change:<key>"` per alteration, in order. -/
def m_emitAlterations (exposedEvents : Bool) (alts : List Alteration) :
    List Event :=
  .change alts ::
    (if exposedEvents then alts.map (fun a => .changeKey a.key a.value)
     else [])

/-- `m_readFile`: `Object.assign({}, flattened)` then try
`Object.assign(copy, JSON.parse(readFileSync(path)))`, falling back to the
fresh copy of the flattened presets on any read or parse failure. -/
def m_readFile (flattened : Obj) : FileContent → Obj
  | .parsed o => objAssign flattened o
  | _ => flattened

/-- The `m_current` getter: the cache when `useCache`, else a fresh
file read.  (A constructed store with `useCache` always has a populated
cache; the `.getD []` branch is unreachable from `construct`.) -/
def m_current (st : StoreState) : Obj :=
  if st.options.useCache then st.cache.getD [] else m_readFile st.flattened st.file

/-- Number of file reads `m_current` performs. -/
def m_currentReads (st : StoreState) : Nat :=
  if st.options.useCache then 0 else 1

/-- `read()`: the full configuration, paired with the number of file reads
performed. -/
def read (st : StoreState) : Obj × Nat :=
  (m_current st, m_currentReads st)

/-- `read(key)`: a single property (`undefined` when absent), paired with
the number of file reads performed. -/
def readKey (st : StoreState) (k : String) : JsValue × Nat :=
  (idx (m_current st) k, m_currentReads st)

/-- Result of `m_writeFile`: the error propagated (if any), the resulting
file content, and how many `fs.writeFileSync` attempts were made. -/
structure WriteRes where
  error : Option ConfErr
  file : FileContent
  attempts : Nat

/-- `m_writeFile(next)`: try `fs.writeFileSync(path, JSON.stringify(next))`;
rethrow any non-ENOENT error; on ENOENT run `m_prepareResource` (the path
is now missing, so it throws `resourceMissing` unless `allowCreate`, else
recreates the directories) and recurse.  The oracle supplies one outcome
per attempt; `none` models the recursion never terminating. -/
def m_writeFile (allowCreate : Bool) (next : Obj) (file : FileContent) :
    List WriteOutcome → Option WriteRes
  | [] => none
  | .ok :: _ => some ⟨none, .parsed next, 1⟩
  | .fatal :: _ => some ⟨some .persistence, file, 1⟩
  | .enoent :: rest =>
    if allowCreate then
      (m_writeFile allowCreate next .missing rest).map
        (fun r => ⟨r.error, r.file, r.attempts + 1⟩)
    else some ⟨some .resourceMissing, .missing, 1⟩

/-- Result of a mutating operation: the post state, the events emitted,
the error propagated (`none` = returned normally), and the number of file
reads performed. -/
structure OpRes where
  state : StoreState
  events : List Event
  error : Option ConfErr
  fileReads : Nat

/-- `alter(key, value)`: read the authoritative configuration (`m_current`;
the cache reference itself when caching), set the property, write the full
configuration back, then emit one alteration.  The cache mutation happens
before the write, so a failed write leaves it in place; no events are
emitted when the write throws. -/
def alter (st : StoreState) (k : String) (v : JsValue)
    (oracle : List WriteOutcome) : Option OpRes :=
  let conf := m_current st
  let conf' := setKey conf k v
  let cache' := if st.options.useCache then some conf' else st.cache
  (m_writeFile st.options.allowCreate conf' st.file oracle).map fun w =>
    match w.error with
    | none =>
      ⟨{ st with cache := cache', file := w.file },
        m_emitAlterations st.options.exposedEvents [⟨k, v⟩],
        none, m_currentReads st⟩
    | some e =>
      ⟨{ st with cache := cache', file := w.file }, [], some e,
        m_currentReads st⟩

/-- `overwrite(next)`: replace the cache when caching, write `next`
verbatim, then emit one alteration per entry of `next`, in `next`'s own
order. -/
def overwrite (st : StoreState) (next : Obj)
    (oracle : List WriteOutcome) : Option OpRes :=
  let cache' := if st.options.useCache then some next else st.cache
  (m_writeFile st.options.allowCreate next st.file oracle).map fun w =>
    match w.error with
    | none =>
      ⟨{ st with cache := cache', file := w.file },
        m_emitAlterations st.options.exposedEvents
          (next.map (fun p => ⟨p.1, p.2⟩)),
        none, 0⟩
    | some e =>
      ⟨{ st with cache := cache', file := w.file }, [], some e, 0⟩

/-- `reset()`: `overwrite(Object.assign({}, schema.flattened))`. -/
def reset (st : StoreState) (oracle : List WriteOutcome) : Option OpRes :=
  overwrite st st.flattened oracle

/-- `trigger(...keys)`: read the current configuration and emit an
alteration per named key with its current value; the state is returned
untouched and no write occurs. -/
def trigger (st : StoreState) (keys : List String) :
    StoreState × List Event :=
  let conf := m_current st
  (st, m_emitAlterations st.options.exposedEvents
    (keys.map (fun k => ⟨k, idx conf k⟩)))

/-- JS `path.endsWith('.json')`: the path's characters end with `.json`. -/
def endsWithJson (path : String) : Bool :=
  ".json".data.isSuffixOf path.data

/-- The constructor: build the schema, resolve options, validate the
`.json` extension, ensure the resource (create directories when the file
is missing and creation is allowed, else throw), then populate the cache
when caching. -/
def construct {M : Type} (draft : Draft M) (opts : IConfig)
    (file : FileContent) : Except ConfErr StoreState :=
  let flattened := flatten draft
  let options := resolveOptions opts
  if ¬ endsWithJson options.path then .error .validationError
  else if fileExists file = false ∧ options.allowCreate = false then
    .error .resourceMissing
  else
    let cache := if options.useCache then some (m_readFile flattened file)
      else none
    .ok ⟨options, flattened, cache, file⟩

/-- Whether an attempt outcome is the ENOENT (missing path) failure. -/
def WriteOutcome.isEnoent : WriteOutcome → Bool
  | .enoent => true
  | _ => false

/-- Two objects have equal key sets (each key of one occurs in the other). -/
def sameKeys (x y : Obj) : Bool :=
  x.all (fun p => hasKey y p.1) && y.all (fun p => hasKey x p.1)

/-! ## Association-list lemmas (JS object semantics) -/

theorem hasKey_cons {p : String × JsValue} {rest : Obj} {k : String} :
    hasKey (p :: rest) k = ((p.1 == k) || hasKey rest k) := by
  simp [hasKey, List.any_cons]

theorem getKey?_cons {p : String × JsValue} {rest : Obj} {k : String} :
    getKey? (p :: rest) k =
      if p.1 == k then some p.2 else getKey? rest k := by
  by_cases h : p.1 == k <;> simp [getKey?, List.find?_cons, h]

theorem hasKey_iff_mem {o : Obj} {k : String} :
    hasKey o k = true ↔ k ∈ o.map Prod.fst := by
  constructor
  · intro h
    rcases List.any_eq_true.mp h with ⟨p, hp, hpk⟩
    exact List.mem_map.mpr ⟨p, hp, beq_iff_eq.mp hpk⟩
  · intro h
    rcases List.mem_map.mp h with ⟨p, hp, hpk⟩
    exact List.any_eq_true.mpr ⟨p, hp, beq_iff_eq.mpr hpk⟩

theorem getKey?_eq_none {o : Obj} {k : String} (h : hasKey o k = false) :
    getKey? o k = none := by
  induction o with
  | nil => rfl
  | cons p rest ih =>
    rw [hasKey_cons, Bool.or_eq_false_iff] at h
    rw [getKey?_cons, if_neg (by simp [h.1]), ih h.2]

theorem hasKey_of_getKey?_eq_some {o : Obj} {k : String} {v : JsValue}
    (h : getKey? o k = some v) : hasKey o k = true := by
  cases hc : hasKey o k
  · rw [getKey?_eq_none hc] at h; exact Option.noConfusion h
  · rfl

theorem hasKey_eq_keys_any {o : Obj} {k : String} :
    hasKey o k = (o.map Prod.fst).any (fun x => x == k) := by
  induction o with
  | nil => rfl
  | cons p rest ih => rw [hasKey_cons, List.map_cons, List.any_cons, ih]

theorem keys_setKey_pos {o : Obj} {k : String} {v : JsValue}
    (h : hasKey o k = true) :
    (setKey o k v).map Prod.fst = o.map Prod.fst := by
  rw [setKey, if_pos h, List.map_map]
  apply List.map_congr_left
  intro p _
  by_cases hp : p.1 == k
  · simp [Function.comp, hp, (beq_iff_eq.mp hp).symm]
  · simp [Function.comp, hp]

theorem keys_setKey_neg {o : Obj} {k : String} {v : JsValue}
    (h : hasKey o k = false) :
    (setKey o k v).map Prod.fst = o.map Prod.fst ++ [k] := by
  rw [setKey, if_neg (by simp [h]), List.map_append]
  rfl

theorem hasKey_setKey {o : Obj} {k k' : String} {v : JsValue} :
    hasKey (setKey o k v) k' = (hasKey o k' || (k == k')) := by
  cases h : hasKey o k
  · rw [hasKey_eq_keys_any, keys_setKey_neg h, List.any_append,
      ← hasKey_eq_keys_any]
    simp
  · rw [hasKey_eq_keys_any, keys_setKey_pos h, ← hasKey_eq_keys_any]
    by_cases hkk : k == k'
    · rw [← beq_iff_eq.mp hkk, h]
      simp [hkk]
    · simp [hkk]

theorem getKey?_setKey_self {o : Obj} {k : String} {v : JsValue} :
    getKey? (setKey o k v) k = some v := by
  rw [setKey]
  cases h : hasKey o k
  · rw [if_neg (by simp [h])]
    induction o with
    | nil => simp [getKey?_cons]
    | cons p rest ih =>
      rw [hasKey_cons, Bool.or_eq_false_iff] at h
      rw [List.cons_append, getKey?_cons, if_neg (by simp [h.1])]
      exact ih h.2
  · rw [if_pos rfl]
    induction o with
    | nil => exact absurd h (by simp [hasKey])
    | cons p rest ih =>
      by_cases hp : p.1 == k
      · simp [List.map_cons, getKey?_cons, beq_iff_eq.mp hp]
      · rw [hasKey_cons, Bool.or_eq_true] at h
        rcases h with h | h
        · exact absurd h (by simp [hp])
        · rw [List.map_cons, if_neg hp, getKey?_cons, if_neg hp]
          exact ih h

theorem getKey?_setKey_ne {o : Obj} {k k' : String} {v : JsValue}
    (hne : k' ≠ k) : getKey? (setKey o k v) k' = getKey? o k' := by
  rw [setKey]
  cases h : hasKey o k
  · rw [if_neg (by simp [h])]
    induction o with
    | nil => simp [getKey?_cons, Ne.symm hne, getKey?]
    | cons p rest ih =>
      rw [hasKey_cons, Bool.or_eq_false_iff] at h
      rw [List.cons_append, getKey?_cons, getKey?_cons]
      by_cases hpk : p.1 == k'
      · simp [hpk]
      · rw [if_neg hpk, if_neg hpk]
        exact ih h.2
  · rw [if_pos rfl]
    induction o with
    | nil => rfl
    | cons p rest ih =>
      rw [hasKey_cons, Bool.or_eq_true] at h
      by_cases hp : p.1 == k
      · rw [List.map_cons, if_pos hp, getKey?_cons, getKey?_cons,
          if_neg (by simp [Ne.symm hne]),
          if_neg (by simp [beq_iff_eq.mp hp, Ne.symm hne])]
        cases hr : hasKey rest k
        · have : rest.map (fun p => if p.1 == k then (k, v) else p) = rest := by
            conv_rhs => rw [← List.map_id rest]
            apply List.map_congr_left
            intro a ha
            have hak : (a.1 == k) = false := by
              cases hak : a.1 == k
              · rfl
              · have hmem : hasKey rest k = true :=
                  List.any_eq_true.mpr ⟨a, ha, hak⟩
                rw [hmem] at hr
                exact Bool.noConfusion hr
            simp [hak]
          rw [this]
        · exact ih hr
      · rw [List.map_cons, if_neg hp, getKey?_cons, getKey?_cons]
        by_cases hpk : p.1 == k'
        · simp [hpk]
        · rw [if_neg hpk, if_neg hpk]
          rcases h with h | h
          · exact absurd h (by simp [hp])
          · exact ih h

theorem hasKey_objAssign {t s : Obj} {k : String} :
    hasKey (objAssign t s) k = (hasKey t k || hasKey s k) := by
  induction s generalizing t with
  | nil => simp [objAssign, hasKey]
  | cons p rest ih =>
    rw [objAssign, List.foldl_cons]
    have : hasKey (p :: rest) k = ((p.1 == k) || hasKey rest k) := hasKey_cons
    rw [this, ← objAssign, ih, hasKey_setKey]
    cases hasKey t k <;> cases (p.1 == k) <;> cases hasKey rest k <;> rfl

theorem getKey?_objAssign {t s : Obj} {k : String}
    (hnd : (s.map Prod.fst).Nodup) :
    getKey? (objAssign t s) k = (getKey? s k).or (getKey? t k) := by
  induction s generalizing t with
  | nil => simp [objAssign, getKey?]
  | cons p rest ih =>
    rw [List.map_cons, List.nodup_cons] at hnd
    rw [objAssign, List.foldl_cons, ← objAssign, ih hnd.2, getKey?_cons]
    by_cases hpk : p.1 == k
    · have hk : p.1 = k := beq_iff_eq.mp hpk
      have hr : hasKey rest k = false := by
        cases hc : hasKey rest k
        · rfl
        · exact absurd (hk ▸ hasKey_iff_mem.mp hc) hnd.1
      rw [if_pos hpk, getKey?_eq_none hr, hk, getKey?_setKey_self]
      rfl
    · rw [if_neg hpk,
        getKey?_setKey_ne (fun hc => hpk (beq_iff_eq.mpr hc.symm))]

theorem nodup_keys_setKey {o : Obj} {k : String} {v : JsValue}
    (h : (o.map Prod.fst).Nodup) : ((setKey o k v).map Prod.fst).Nodup := by
  cases hc : hasKey o k
  · rw [keys_setKey_neg hc]
    refine List.Nodup.append h (List.nodup_singleton k) ?_
    intro a ha hb
    rcases List.mem_singleton.mp hb with rfl
    exact absurd (hasKey_iff_mem.mpr ha) (by simp [hc])
  · rw [keys_setKey_pos hc]; exact h

theorem nodup_keys_flatten {M : Type} (draft : Draft M) :
    ((flatten draft).map Prod.fst).Nodup := by
  suffices h : ∀ (d : Draft M) (acc : Obj), (acc.map Prod.fst).Nodup →
      ((d.foldl (fun a p => setKey a p.1 p.2.preset) acc).map Prod.fst).Nodup by
    exact h draft [] (by simp)
  intro d
  induction d with
  | nil => intro acc hacc; exact hacc
  | cons p rest ih =>
    intro acc hacc
    exact ih _ (nodup_keys_setKey hacc)

/-! ## Write-loop and store-operation lemmas -/

theorem m_writeFile_file_of_ok {a : Bool} {n : Obj} {f : FileContent}
    {oracle : List WriteOutcome} {w : WriteRes}
    (hw : m_writeFile a n f oracle = some w) (he : w.error = none) :
    w.file = .parsed n := by
  induction oracle generalizing f w with
  | nil => exact Option.noConfusion hw
  | cons o rest ih =>
    cases o with
    | ok =>
      rw [m_writeFile] at hw
      cases Option.some.injEq .. ▸ hw
      rfl
    | fatal =>
      rw [m_writeFile] at hw
      cases Option.some.injEq .. ▸ hw
      exact Option.noConfusion he
    | enoent =>
      rw [m_writeFile] at hw
      by_cases ha : a
      · rw [if_pos ha] at hw
        cases hw' : m_writeFile a n .missing rest with
        | none => rw [hw', Option.map_none'] at hw; exact Option.noConfusion hw
        | some w' =>
          rw [hw', Option.map_some'] at hw
          cases Option.some.injEq .. ▸ hw
          exact ih (w := w') hw' he
      · rw [if_neg ha] at hw
        cases Option.some.injEq .. ▸ hw
        exact Option.noConfusion he

theorem m_writeFile_attempts {n : Obj} {f : FileContent}
    {oracle : List WriteOutcome} {w : WriteRes}
    (hw : m_writeFile true n f oracle = some w) :
    w.attempts = (oracle.takeWhile WriteOutcome.isEnoent).length + 1 := by
  induction oracle generalizing f w with
  | nil => exact Option.noConfusion hw
  | cons o rest ih =>
    cases o with
    | ok =>
      rw [m_writeFile] at hw
      cases Option.some.injEq .. ▸ hw
      simp [List.takeWhile, WriteOutcome.isEnoent]
    | fatal =>
      rw [m_writeFile] at hw
      cases Option.some.injEq .. ▸ hw
      simp [List.takeWhile, WriteOutcome.isEnoent]
    | enoent =>
      rw [m_writeFile, if_pos rfl] at hw
      cases hw' : m_writeFile true n .missing rest with
      | none => rw [hw', Option.map_none'] at hw; exact Option.noConfusion hw
      | some w' =>
        rw [hw', Option.map_some'] at hw
        cases Option.some.injEq .. ▸ hw
        simp [List.takeWhile, WriteOutcome.isEnoent, ih (w := w') hw']

theorem getKey?_isSome_of_hasKey {o : Obj} {k : String}
    (h : hasKey o k = true) : (getKey? o k).isSome = true := by
  induction o with
  | nil => exact Bool.noConfusion h
  | cons p rest ih =>
    rw [hasKey_cons, Bool.or_eq_true] at h
    rw [getKey?_cons]
    by_cases hp : p.1 == k
    · rw [if_pos hp]; rfl
    · rw [if_neg hp]
      rcases h with h | h
      · exact absurd h (by simp [hp])
      · exact ih h

theorem sameKeys_hasKey {x y : Obj} (h : sameKeys x y = true) (k : String) :
    hasKey x k = hasKey y k := by
  rw [sameKeys, Bool.and_eq_true, List.all_eq_true, List.all_eq_true] at h
  cases hx : hasKey x k
  · cases hy : hasKey y k
    · rfl
    · rcases List.any_eq_true.mp hy with ⟨q, hq, hqk⟩
      have := h.2 q hq
      rw [beq_iff_eq.mp hqk] at this
      rw [hx] at this
      exact Bool.noConfusion this
  · rcases List.any_eq_true.mp hx with ⟨q, hq, hqk⟩
    have := h.1 q hq
    rw [beq_iff_eq.mp hqk] at this
    exact this.symm

/-! ## Claim theorems -/

/-- C1: for every flattened-defaults map and file state, reading the
configuration shallow-merges the parsed file object over a fresh copy of
the flattened defaults — per key the file's value wins, defaults-only
keys are retained, and file-only keys are retained — and on any read or
parse failure (missing, unreadable, invalid JSON) it returns the
flattened defaults instead of raising; in particular a store constructed
with `useCache` over an invalid-JSON file succeeds and `read()` returns
the flattened presets. -/
theorem claim_C1 {M : Type} (flattened fo : Obj) (k : String)
    (draft : Draft M) (a e : Option Bool)
    (hnd : (fo.map Prod.fst).Nodup) :
    getKey? (m_readFile flattened (.parsed fo)) k
        = (getKey? fo k).or (getKey? flattened k) ∧
    hasKey (m_readFile flattened (.parsed fo)) k
        = (hasKey flattened k || hasKey fo k) ∧
    m_readFile flattened .missing = flattened ∧
    m_readFile flattened .corrupt = flattened ∧
    construct draft ⟨"conf.json", some true, a, e⟩ .corrupt
      = .ok ⟨⟨"conf.json", true, a.getD true, e.getD false⟩, flatten draft,
          some (flatten draft), .corrupt⟩ ∧
    read ⟨⟨"conf.json", true, a.getD true, e.getD false⟩, flatten draft,
        some (flatten draft), .corrupt⟩ = (flatten draft, 0) := by
  exact ⟨getKey?_objAssign hnd, hasKey_objAssign, rfl, rfl, rfl, rfl⟩

/-- C1 witness: concrete defaults and file object. -/
theorem claim_C1_witness :
    getKey? (m_readFile [("a", .num 1), ("b", .num 2)]
        (.parsed [("b", .num 9), ("c", .num 3)])) "b"
      = (getKey? [("b", .num 9), ("c", .num 3)] "b").or
          (getKey? [("a", .num 1), ("b", .num 2)] "b") ∧
    hasKey (m_readFile [("a", .num 1), ("b", .num 2)]
        (.parsed [("b", .num 9), ("c", .num 3)])) "b"
      = (hasKey [("a", .num 1), ("b", .num 2)] "b" ||
          hasKey [("b", .num 9), ("c", .num 3)] "b") ∧
    m_readFile [("a", .num 1), ("b", .num 2)] .missing
      = [("a", .num 1), ("b", .num 2)] ∧
    m_readFile [("a", .num 1), ("b", .num 2)] .corrupt
      = [("a", .num 1), ("b", .num 2)] ∧
    construct (M := Unit) [("a", ⟨.num 1, ()⟩), ("b", ⟨.num 2, ()⟩)]
        ⟨"conf.json", some true, none, none⟩ .corrupt
      = .ok ⟨⟨"conf.json", true, Option.none.getD true,
          Option.none.getD false⟩,
          flatten (M := Unit) [("a", ⟨.num 1, ()⟩), ("b", ⟨.num 2, ()⟩)],
          some (flatten (M := Unit)
            [("a", ⟨.num 1, ()⟩), ("b", ⟨.num 2, ()⟩)]), .corrupt⟩ ∧
    read ⟨⟨"conf.json", true, Option.none.getD true,
        Option.none.getD false⟩,
        flatten (M := Unit) [("a", ⟨.num 1, ()⟩), ("b", ⟨.num 2, ()⟩)],
        some (flatten (M := Unit)
          [("a", ⟨.num 1, ()⟩), ("b", ⟨.num 2, ()⟩)]), .corrupt⟩
      = (flatten (M := Unit) [("a", ⟨.num 1, ()⟩), ("b", ⟨.num 2, ()⟩)],
          0) :=
  claim_C1 [("a", .num 1), ("b", .num 2)] [("b", .num 9), ("c", .num 3)] "b"
    [("a", ⟨.num 1, ()⟩), ("b", ⟨.num 2, ()⟩)] none none (by decide)

/-- C4 counterexample: the claim says that after a missing-path failure the
writer retries exactly once and rethrows if that retry also fails.  With
two consecutive ENOENT failures followed by a success, the code instead
performs a third `writeFileSync` attempt and returns successfully. -/
theorem claim_C4_counterexample :
    m_writeFile true [("a", .num 1)] .missing [.enoent, .enoent, .ok]
      = some ⟨none, .parsed [("a", .num 1)], 3⟩ ∧
    ¬ (3 : Nat) ≤ 2 :=
  ⟨rfl, by decide⟩

/-- C4 (amended): on a missing-path (ENOENT) write failure the writer
re-runs `ensureResource` and retries, repeating for every further
missing-path failure — the attempt count is the number of leading ENOENT
outcomes plus one, with no cap — and when creation is disallowed
`ensureResource`'s ResourceMissing error propagates instead; every write
failure not caused by a missing path is propagated without any retry. -/
theorem claim_C4 (n : Obj) (f : FileContent)
    (rest oracle : List WriteOutcome) (w : WriteRes) :
    (∀ a, m_writeFile a n f (.fatal :: rest)
        = some ⟨some .persistence, f, 1⟩) ∧
    m_writeFile false n f (.enoent :: rest)
        = some ⟨some .resourceMissing, .missing, 1⟩ ∧
    m_writeFile true n f (.enoent :: rest)
        = (m_writeFile true n .missing rest).map
            (fun r => ⟨r.error, r.file, r.attempts + 1⟩) ∧
    (m_writeFile true n f oracle = some w →
      w.attempts = (oracle.takeWhile WriteOutcome.isEnoent).length + 1) := by
  refine ⟨fun a => rfl, rfl, ?_, fun hw => m_writeFile_attempts hw⟩
  rw [m_writeFile, if_pos rfl]

/-- C4 witness: a fatal first failure propagates after one attempt; a
persistent ENOENT run of length two costs three attempts. -/
theorem claim_C4_witness :
    m_writeFile true [("a", .num 1)] .corrupt [.fatal]
        = some ⟨some .persistence, .corrupt, 1⟩ ∧
    m_writeFile false [("a", .num 1)] .corrupt [.enoent]
        = some ⟨some .resourceMissing, .missing, 1⟩ ∧
    m_writeFile true [("a", .num 1)] .corrupt [.enoent]
        = (m_writeFile true [("a", .num 1)] .missing []).map
            (fun r => ⟨r.error, r.file, r.attempts + 1⟩) ∧
    (3 : Nat) = ([WriteOutcome.enoent, .enoent,
        .ok].takeWhile WriteOutcome.isEnoent).length + 1 :=
  ⟨(claim_C4 [("a", .num 1)] .corrupt [] [.enoent, .enoent, .ok]
      ⟨none, .parsed [("a", .num 1)], 3⟩).1 true,
   (claim_C4 [("a", .num 1)] .corrupt [] [.enoent, .enoent, .ok]
      ⟨none, .parsed [("a", .num 1)], 3⟩).2.1,
   (claim_C4 [("a", .num 1)] .corrupt [] [.enoent, .enoent, .ok]
      ⟨none, .parsed [("a", .num 1)], 3⟩).2.2.1,
   (claim_C4 [("a", .num 1)] .corrupt [] [.enoent, .enoent, .ok]
      ⟨none, .parsed [("a", .num 1)], 3⟩).2.2.2 rfl⟩

/-- C5: for every commit the batch `"change"` event fires exactly once,
first, with the complete ordered alteration list, and per-key events (one
per alteration, carrying that alteration's value, in batch order) fire
if and only if the store was constructed with `exposedEvents`. -/
theorem claim_C5 (st : StoreState) (k : String) (v : JsValue)
    (next : Obj) (keys : List String) (exposed : Bool)
    (B : List Alteration) :
    (m_emitAlterations exposed B).head? = some (.change B) ∧
    (m_emitAlterations exposed B).tail
        = (if exposed then B.map (fun a => .changeKey a.key a.value)
           else []) ∧
    (alter st k v [.ok]).map OpRes.events
        = some (.change [⟨k, v⟩] ::
            (if st.options.exposedEvents then [.changeKey k v] else [])) ∧
    (overwrite st next [.ok]).map OpRes.events
        = some (.change (next.map (fun p => (⟨p.1, p.2⟩ : Alteration))) ::
            (if st.options.exposedEvents then
              (next.map (fun p => (⟨p.1, p.2⟩ : Alteration))).map
                (fun a => Event.changeKey a.key a.value)
             else [])) ∧
    (trigger st keys).2 = m_emitAlterations st.options.exposedEvents
        (keys.map (fun key => ⟨key, idx (m_current st) key⟩)) := by
  refine ⟨rfl, rfl, ?_, ?_, rfl⟩
  · cases hE : st.options.exposedEvents <;>
      simp [alter, m_writeFile, m_emitAlterations, hE]
  · cases hE : st.options.exposedEvents <;>
      simp [overwrite, m_writeFile, m_emitAlterations, hE]

/-- C9: `trigger(keys...)` emits the batch built from the current value of
each named key, mutates nothing and writes nothing — the state after the
call is the state before, a subsequent `read(k)` is unchanged — and it
fires the same events as an `alter` of a key to its current value. -/
theorem claim_C9 (st : StoreState) (keys : List String) (k : String) :
    (trigger st keys).1 = st ∧
    (trigger st keys).2 = m_emitAlterations st.options.exposedEvents
        (keys.map (fun key => ⟨key, idx (m_current st) key⟩)) ∧
    readKey (trigger st keys).1 k = readKey st k ∧
    (alter st k (idx (m_current st) k) [.ok]).map OpRes.events
        = some (trigger st [k]).2 := by
  refine ⟨rfl, rfl, rfl, ?_⟩
  cases hE : st.options.exposedEvents <;>
    simp [alter, trigger, m_writeFile, m_emitAlterations, hE]

/-- C2: for a store with `useCache` (whose cache holds `c`), `read()` and
`read(key)` perform no file read and are served from the cache, and every
mutation (`alter`, `overwrite`, `reset`) updates the cache and then writes
the cache contents to the file — the cache is updated even when the write
subsequently fails. -/
theorem claim_C2 (st : StoreState) (c : Obj) (k : String) (v : JsValue)
    (next : Obj) (rest : List WriteOutcome)
    (h : st.options.useCache = true) (hc : st.cache = some c) :
    read st = (c, 0) ∧
    readKey st k = (idx c k, 0) ∧
    alter st k v [.ok]
      = some ⟨⟨st.options, st.flattened, some (setKey c k v),
          .parsed (setKey c k v)⟩,
        m_emitAlterations st.options.exposedEvents [⟨k, v⟩], none, 0⟩ ∧
    (alter st k v (.fatal :: rest)).map (fun r => r.state.cache)
      = some (some (setKey c k v)) ∧
    overwrite st next [.ok]
      = some ⟨⟨st.options, st.flattened, some next, .parsed next⟩,
        m_emitAlterations st.options.exposedEvents
          (next.map (fun p => (⟨p.1, p.2⟩ : Alteration))), none, 0⟩ ∧
    reset st [.ok]
      = some ⟨⟨st.options, st.flattened, some st.flattened,
          .parsed st.flattened⟩,
        m_emitAlterations st.options.exposedEvents
          (st.flattened.map (fun p => (⟨p.1, p.2⟩ : Alteration))),
        none, 0⟩ := by
  refine ⟨?_, ?_, ?_, ?_, ?_, ?_⟩
  · simp [read, m_current, m_currentReads, h, hc]
  · simp [readKey, m_current, m_currentReads, h, hc]
  · simp [alter, m_writeFile, m_current, m_currentReads, h, hc]
  · simp [alter, m_writeFile, m_current, m_currentReads, h, hc]
  · simp [overwrite, m_writeFile, h]
  · simp [reset, overwrite, m_writeFile, h]

/-- C2 witness: a concrete cached store over a one-key schema. -/
theorem claim_C2_witness :
    read ⟨⟨"c.json", true, true, false⟩, [("k", .num 0)],
        some [("k", .num 0)], .missing⟩ = ([("k", .num 0)], 0) ∧
    readKey ⟨⟨"c.json", true, true, false⟩, [("k", .num 0)],
        some [("k", .num 0)], .missing⟩ "k" = (idx [("k", .num 0)] "k", 0) ∧
    alter ⟨⟨"c.json", true, true, false⟩, [("k", .num 0)],
        some [("k", .num 0)], .missing⟩ "k" (.num 5) [.ok]
      = some ⟨⟨⟨"c.json", true, true, false⟩, [("k", .num 0)],
          some (setKey [("k", .num 0)] "k" (.num 5)),
          .parsed (setKey [("k", .num 0)] "k" (.num 5))⟩,
        m_emitAlterations false [⟨"k", .num 5⟩], none, 0⟩ ∧
    (alter ⟨⟨"c.json", true, true, false⟩, [("k", .num 0)],
        some [("k", .num 0)], .missing⟩ "k" (.num 5) [.fatal]).map
          (fun r => r.state.cache)
      = some (some (setKey [("k", .num 0)] "k" (.num 5))) ∧
    overwrite ⟨⟨"c.json", true, true, false⟩, [("k", .num 0)],
        some [("k", .num 0)], .missing⟩ [("k", .num 7)] [.ok]
      = some ⟨⟨⟨"c.json", true, true, false⟩, [("k", .num 0)],
          some [("k", .num 7)], .parsed [("k", .num 7)]⟩,
        m_emitAlterations false ([("k", JsValue.num 7)].map
          (fun p => (⟨p.1, p.2⟩ : Alteration))), none, 0⟩ ∧
    reset ⟨⟨"c.json", true, true, false⟩, [("k", .num 0)],
        some [("k", .num 0)], .missing⟩ [.ok]
      = some ⟨⟨⟨"c.json", true, true, false⟩, [("k", .num 0)],
          some [("k", .num 0)], .parsed [("k", .num 0)]⟩,
        m_emitAlterations false ([("k", JsValue.num 0)].map
          (fun p => (⟨p.1, p.2⟩ : Alteration))), none, 0⟩ :=
  claim_C2 ⟨⟨"c.json", true, true, false⟩, [("k", .num 0)],
    some [("k", .num 0)], .missing⟩ [("k", .num 0)] "k" (.num 5)
    [("k", .num 7)] [] rfl rfl

/-- C3: `alter(k, v)` reads the authoritative configuration (`m_current`:
the cache when caching, else the file merged over defaults), writes the
full modified snapshot, and emits exactly one alteration `(k, v)` only
after the write succeeds; on a fatal write failure nothing is emitted but
the cache (when enabled) has already been mutated, leaving cache and disk
inconsistent (the file keeps its prior contents) with no rollback. -/
theorem claim_C3 (st : StoreState) (k : String) (v : JsValue)
    (rest : List WriteOutcome) :
    alter st k v [.ok]
      = some ⟨⟨st.options, st.flattened,
          (if st.options.useCache then some (setKey (m_current st) k v)
           else st.cache), .parsed (setKey (m_current st) k v)⟩,
        m_emitAlterations st.options.exposedEvents [⟨k, v⟩],
        none, m_currentReads st⟩ ∧
    alter st k v (.fatal :: rest)
      = some ⟨⟨st.options, st.flattened,
          (if st.options.useCache then some (setKey (m_current st) k v)
           else st.cache), st.file⟩,
        [], some .persistence, m_currentReads st⟩ := by
  exact ⟨rfl, rfl⟩

/-- C6: for every JSON value `x` whose key set equals the schema's key
set, and every store (cache enabled or disabled), `overwrite(x)` followed
by `read()` yields a configuration deep-equal to `x` (same value at every
key). -/
theorem claim_C6 (st : StoreState) (x : Obj) (k : String)
    (hkeys : sameKeys x st.flattened = true)
    (hnd : (x.map Prod.fst).Nodup) :
    (overwrite st x [.ok]).map (fun r => getKey? (read r.state).1 k)
      = some (getKey? x k) := by
  cases hU : st.options.useCache
  · simp only [overwrite, m_writeFile, hU, Option.map_some']
    simp only [read, m_current, hU, Bool.false_eq_true, if_false,
      m_readFile, Option.some.injEq]
    rw [getKey?_objAssign hnd]
    cases hx : hasKey x k
    · rw [getKey?_eq_none hx,
        getKey?_eq_none ((sameKeys_hasKey hkeys k).symm.trans hx)]
      rfl
    · rcases Option.isSome_iff_exists.mp (getKey?_isSome_of_hasKey hx)
        with ⟨w, hw⟩
      rw [hw]
      rfl
  · simp [overwrite, m_writeFile, hU, read, m_current]

/-- C6 witness: a two-key schema overwritten with reordered keys. -/
theorem claim_C6_witness :
    (overwrite ⟨⟨"c.json", false, true, false⟩,
        [("a", .num 1), ("b", .num 2)], none, .missing⟩
        [("b", .num 9), ("a", .num 8)] [.ok]).map
          (fun r => getKey? (read r.state).1 "a")
      = some (getKey? [("b", .num 9), ("a", .num 8)] "a") :=
  claim_C6 ⟨⟨"c.json", false, true, false⟩,
    [("a", .num 1), ("b", .num 2)], none, .missing⟩
    [("b", .num 9), ("a", .num 8)] "a" (by decide) (by decide)

/-- C7 counterexample: the claim says every configuration object returned
by `read()` contains every key of the schema.  On a cached store,
`overwrite` installs its argument verbatim as the cache (`draft.ts:143`),
so after overwriting with an object lacking schema key `"a"` a subsequent
`read()` returns an object without `"a"`, although `"a"` is a schema key. -/
theorem claim_C7_counterexample :
    (overwrite ⟨⟨"c.json", true, true, false⟩, [("a", .num 1)],
        some [("a", .num 1)], .missing⟩ [("z", .num 9)] [.ok]).map
          (fun r => hasKey (read r.state).1 "a")
      = some false ∧
    hasKey [("a", .num 1)] "a" = true :=
  ⟨rfl, rfl⟩

/-- C7 (amended): constructing a store against a fresh path (file
nonexistent, creation allowed) succeeds, and `read()` then returns
exactly the schema's flattened preset map; every configuration object
produced by a file read — any uncached `read()`, and the cache as
populated at construction — contains every key of the flattened schema.
(A cached store's `read()` after an `overwrite` whose argument drops
schema keys returns that object verbatim and need not contain them.) -/
theorem claim_C7 {M : Type} (draft : Draft M) (u e : Option Bool)
    (p : String) (st : StoreState) (flattened : Obj)
    (file : FileContent) (k : String)
    (hp : endsWithJson p = true)
    (hk : hasKey flattened k = true)
    (hU : st.options.useCache = false)
    (hks : hasKey st.flattened k = true) :
    construct draft ⟨p, u, some true, e⟩ .missing
      = .ok ⟨⟨p, u.getD false, true, e.getD false⟩, flatten draft,
          (if u.getD false then some (flatten draft) else none),
          .missing⟩ ∧
    (read ⟨⟨p, u.getD false, true, e.getD false⟩, flatten draft,
        (if u.getD false then some (flatten draft) else none),
        .missing⟩).1
      = flatten draft ∧
    hasKey (m_readFile flattened file) k = true ∧
    hasKey (read st).1 k = true := by
  refine ⟨?_, ?_, ?_, ?_⟩
  · simp only [construct, resolveOptions]
    rw [if_neg (by simp [hp]), if_neg (by simp [fileExists])]
    rfl
  · cases hu : u.getD false <;> simp [read, m_current, hu, m_readFile]
  · cases file with
    | missing => exact hk
    | corrupt => exact hk
    | parsed o => rw [m_readFile, hasKey_objAssign, hk, Bool.true_or]
  · have hrd : (read st).1 = m_readFile st.flattened st.file := by
      simp [read, m_current, hU]
    rw [hrd]
    cases hf : st.file with
    | missing => exact hks
    | corrupt => exact hks
    | parsed o => rw [m_readFile, hasKey_objAssign, hks, Bool.true_or]

/-- C7 witness: a fresh `.json` path with a one-key draft, and an
uncached store whose file holds only a non-schema key. -/
theorem claim_C7_witness :
    construct (M := Unit) [("a", ⟨.num 1, ()⟩)]
        ⟨"conf.json", none, some true, none⟩ .missing
      = .ok ⟨⟨"conf.json", Option.none.getD false, true,
          Option.none.getD false⟩,
          flatten (M := Unit) [("a", ⟨.num 1, ()⟩)],
          (if Option.none.getD false then
            some (flatten (M := Unit) [("a", ⟨.num 1, ()⟩)]) else none),
          .missing⟩ ∧
    (read ⟨⟨"conf.json", Option.none.getD false, true,
        Option.none.getD false⟩,
        flatten (M := Unit) [("a", ⟨.num 1, ()⟩)],
        (if Option.none.getD false then
          some (flatten (M := Unit) [("a", ⟨.num 1, ()⟩)]) else none),
        .missing⟩).1
      = flatten (M := Unit) [("a", ⟨.num 1, ()⟩)] ∧
    hasKey (m_readFile [("a", .num 1)] .corrupt) "a" = true ∧
    hasKey (read ⟨⟨"c.json", false, true, false⟩, [("a", .num 1)], none,
        .parsed [("x", .num 4)]⟩).1 "a" = true :=
  claim_C7 (M := Unit) [("a", ⟨.num 1, ()⟩)] none none "conf.json"
    ⟨⟨"c.json", false, true, false⟩, [("a", .num 1)], none,
      .parsed [("x", .num 4)]⟩
    [("a", .num 1)] .corrupt "a" rfl (by decide) rfl (by decide)

/-- C8: `reset()` is exactly `overwrite` applied to a copy of the schema's
flattened presets, `reset(); read()` yields the flattened presets (same
key set, same value per key) regardless of the prior state, and a second
`reset()` returns the very same result. -/
theorem claim_C8 (st : StoreState) (k : String)
    (hnd : (st.flattened.map Prod.fst).Nodup) :
    reset st [.ok] = overwrite st st.flattened [.ok] ∧
    (reset st [.ok]).map (fun r => getKey? (read r.state).1 k)
      = some (getKey? st.flattened k) ∧
    (reset st [.ok]).map (fun r => hasKey (read r.state).1 k)
      = some (hasKey st.flattened k) ∧
    (reset st [.ok]).map (fun r => reset r.state [.ok])
      = some (reset st [.ok]) := by
  refine ⟨rfl, ?_, ?_, ?_⟩
  · cases hU : st.options.useCache
    · simp only [reset, overwrite, m_writeFile, hU, Option.map_some']
      simp only [read, m_current, hU, Bool.false_eq_true, if_false,
        m_readFile, Option.some.injEq]
      rw [getKey?_objAssign hnd]
      cases getKey? st.flattened k <;> rfl
    · simp [reset, overwrite, m_writeFile, hU, read, m_current]
  · cases hU : st.options.useCache
    · simp only [reset, overwrite, m_writeFile, hU, Option.map_some']
      simp only [read, m_current, hU, Bool.false_eq_true, if_false,
        m_readFile, Option.some.injEq]
      rw [hasKey_objAssign, Bool.or_self]
    · simp [reset, overwrite, m_writeFile, hU, read, m_current]
  · cases hU : st.options.useCache <;>
      simp [reset, overwrite, m_writeFile, hU]

/-- C8 witness: resetting a concrete mutated uncached store. -/
theorem claim_C8_witness :
    reset ⟨⟨"c.json", false, true, false⟩, [("a", .num 1)], none,
        .parsed [("a", .num 9), ("x", .num 4)]⟩ [.ok]
      = overwrite ⟨⟨"c.json", false, true, false⟩, [("a", .num 1)], none,
          .parsed [("a", .num 9), ("x", .num 4)]⟩ [("a", .num 1)] [.ok] ∧
    (reset ⟨⟨"c.json", false, true, false⟩, [("a", .num 1)], none,
        .parsed [("a", .num 9), ("x", .num 4)]⟩ [.ok]).map
          (fun r => getKey? (read r.state).1 "a")
      = some (getKey? [("a", .num 1)] "a") ∧
    (reset ⟨⟨"c.json", false, true, false⟩, [("a", .num 1)], none,
        .parsed [("a", .num 9), ("x", .num 4)]⟩ [.ok]).map
          (fun r => hasKey (read r.state).1 "a")
      = some (hasKey [("a", .num 1)] "a") ∧
    (reset ⟨⟨"c.json", false, true, false⟩, [("a", .num 1)], none,
        .parsed [("a", .num 9), ("x", .num 4)]⟩ [.ok]).map
          (fun r => reset r.state [.ok])
      = some (reset ⟨⟨"c.json", false, true, false⟩, [("a", .num 1)],
          none, .parsed [("a", .num 9), ("x", .num 4)]⟩ [.ok]) :=
  claim_C8 ⟨⟨"c.json", false, true, false⟩, [("a", .num 1)], none,
    .parsed [("a", .num 9), ("x", .num 4)]⟩ "a" (by decide)

/-- C10: a successful `alter(k, v)` writes a full snapshot — the merged
read result with `k` set — to disk: every schema key is present in the
written file (schema keys absent from the on-disk object are materialized
with their preset values), and keys present only in the file are
preserved. -/
theorem claim_C10 (st : StoreState) (k k' : String) (v : JsValue)
    (fo : Obj)
    (hauth : st.options.useCache = false ∨
      st.cache = some (m_readFile st.flattened st.file))
    (hfile : st.file = .parsed fo)
    (hnd : (fo.map Prod.fst).Nodup)
    (hne : k' ≠ k) :
    (alter st k v [.ok]).map (fun r => r.state.file)
      = some (.parsed (setKey (m_readFile st.flattened st.file) k v)) ∧
    (hasKey st.flattened k' = true →
      hasKey (setKey (m_readFile st.flattened st.file) k v) k' = true) ∧
    (hasKey fo k' = true →
      hasKey (setKey (m_readFile st.flattened st.file) k v) k' = true) ∧
    (hasKey st.flattened k' = true → hasKey fo k' = false →
      getKey? (setKey (m_readFile st.flattened st.file) k v) k'
        = getKey? st.flattened k') := by
  have hcur : m_current st = m_readFile st.flattened st.file := by
    rcases hauth with h | h
    · simp [m_current, h]
    · cases hU : st.options.useCache <;> simp [m_current, hU, h]
  refine ⟨?_, ?_, ?_, ?_⟩
  · simp [alter, m_writeFile, hcur]
  · intro h1
    rw [hasKey_setKey, hfile, m_readFile, hasKey_objAssign, h1,
      Bool.true_or, Bool.true_or]
  · intro h1
    rw [hasKey_setKey, hfile, m_readFile, hasKey_objAssign, h1,
      Bool.or_true, Bool.true_or]
  · intro h1 h2
    rw [getKey?_setKey_ne hne, hfile, m_readFile, getKey?_objAssign hnd,
      getKey?_eq_none h2]
    rfl

/-- C10 witness: an uncached store whose file lacks schema key `a` but
holds an extra key `x`; altering `b` writes the merged snapshot, `a` is
materialized with its preset value and `x` is preserved. -/
theorem claim_C10_witness :
    (alter ⟨⟨"c.json", false, true, false⟩,
        [("a", .num 1), ("b", .num 2)], none,
        .parsed [("b", .num 9), ("x", .num 4)]⟩ "b" (.num 5) [.ok]).map
          (fun r => r.state.file)
      = some (.parsed (setKey (m_readFile [("a", .num 1), ("b", .num 2)]
          (.parsed [("b", .num 9), ("x", .num 4)])) "b" (.num 5))) ∧
    hasKey (setKey (m_readFile [("a", .num 1), ("b", .num 2)]
        (.parsed [("b", .num 9), ("x", .num 4)])) "b" (.num 5)) "a"
      = true ∧
    hasKey (setKey (m_readFile [("a", .num 1), ("b", .num 2)]
        (.parsed [("b", .num 9), ("x", .num 4)])) "b" (.num 5)) "x"
      = true ∧
    getKey? (setKey (m_readFile [("a", .num 1), ("b", .num 2)]
        (.parsed [("b", .num 9), ("x", .num 4)])) "b" (.num 5)) "a"
      = getKey? [("a", .num 1), ("b", .num 2)] "a" :=
  ⟨(claim_C10 ⟨⟨"c.json", false, true, false⟩,
      [("a", .num 1), ("b", .num 2)], none,
      .parsed [("b", .num 9), ("x", .num 4)]⟩ "b" "a" (.num 5)
      [("b", .num 9), ("x", .num 4)] (Or.inl rfl) rfl (by decide)
      (by decide)).1,
   (claim_C10 ⟨⟨"c.json", false, true, false⟩,
      [("a", .num 1), ("b", .num 2)], none,
      .parsed [("b", .num 9), ("x", .num 4)]⟩ "b" "a" (.num 5)
      [("b", .num 9), ("x", .num 4)] (Or.inl rfl) rfl (by decide)
      (by decide)).2.1 (by decide),
   (claim_C10 ⟨⟨"c.json", false, true, false⟩,
      [("a", .num 1), ("b", .num 2)], none,
      .parsed [("b", .num 9), ("x", .num 4)]⟩ "b" "x" (.num 5)
      [("b", .num 9), ("x", .num 4)] (Or.inl rfl) rfl (by decide)
      (by decide)).2.2.1 (by decide),
   (claim_C10 ⟨⟨"c.json", false, true, false⟩,
      [("a", .num 1), ("b", .num 2)], none,
      .parsed [("b", .num 9), ("x", .num 4)]⟩ "b" "a" (.num 5)
      [("b", .num 9), ("x", .num 4)] (Or.inl rfl) rfl (by decide)
      (by decide)).2.2.2 (by decide) (by decide)⟩

end Sconf
